import Mathlib

/-!
Verification of the backtesting engine in `app/strategies/backtesting.py`
(`BacktestEngine`, `MockMarketDataService`, and the result calculation).

Shallow embedding conventions:
* Monetary quantities are rationals (`ℚ`); the Python code uses binary floats,
  and the specification states its numeric properties "within a fixed decimal
  tolerance", so the exact-rational idealization is the intended reading.
* Timestamps are naturals (`ℕ`).
* Python dictionaries (`open_positions`) are insertion-ordered association
  lists; `values()` iteration is list order, matching CPython semantics.
* Python object aliasing matters here: `_process_signal` returns the very
  Trade object that was appended to `trades` when the position was opened and
  mutates it in place on close, so the open-time list entry is the closed
  record as well.  We model this with an explicit id-indexed heap:
  `trades` holds trade ids, and a close updates the heap entry in place.
* The per-bar `try/except` in `run_backtest` is modelled by letting the
  strategy return `Except Unit (List Signal)`: an `error` bar is skipped
  entirely (no signals, no equity point), exactly as the `continue` does.
  Signal processing itself is modelled as total over `ℚ` (Lean's
  division-by-zero-equals-zero convention stands in for the unreachable
  `ZeroDivisionError` paths, which need a zero entry notional or a zero
  running peak).
* Fields of `Trade`/`BacktestResults` that no claim touches and that involve
  floating-point transcendentals (Sharpe, Sortino, annualized return, average
  durations) are omitted from the embedding; `strategy_signal` (a diagnostic
  back-reference) is likewise omitted.
-/

/-- OHLCV bar, one row of the historical DataFrame (`time` is the index). -/
structure Bar where
  time : ℕ
  open_ : ℚ
  high : ℚ
  low : ℚ
  close : ℚ
  volume : ℚ
deriving DecidableEq, Repr

instance : Inhabited Bar := ⟨⟨0, 0, 0, 0, 0, 0⟩⟩

/-- Strategy signal dictionary; `signal.get(key)` yields `none` when absent.
Python's falsy test `not symbol` treats a missing key and an empty string
alike, which the `getD ""` in `processSignal` reproduces. -/
structure Signal where
  symbol : Option String := none
  action : Option String := none
  price : Option ℚ := none
  quantity : Option ℚ := none
deriving DecidableEq, Repr

/-- Individual trade record (the `Trade` dataclass). -/
structure Trade where
  symbol : String
  entry_time : ℕ
  exit_time : Option ℕ := none
  entry_price : ℚ
  exit_price : Option ℚ := none
  quantity : ℚ
  side : String
  pnl : ℚ := 0
  pnl_percent : ℚ := 0
  fees : ℚ := 0
  is_open : Bool := true
deriving DecidableEq, Repr

instance : Inhabited Trade :=
  ⟨{ symbol := "", entry_time := 0, entry_price := 0, quantity := 0, side := "" }⟩

/-- Backtest results container (the fields the engine and the claims use). -/
structure BacktestResults where
  strategy_name : String
  symbol : String
  start_date : ℕ
  end_date : ℕ
  total_trades : ℕ := 0
  winning_trades : ℕ := 0
  losing_trades : ℕ := 0
  win_rate : ℚ := 0
  total_return : ℚ := 0
  total_return_percent : ℚ := 0
  max_drawdown : ℚ := 0
  max_drawdown_percent : ℚ := 0
  total_fees : ℚ := 0
  trades : List Trade := []
  equity_curve : List ℚ := []
deriving DecidableEq, Repr

/-- Engine state threaded through the replay loop of `run_backtest`.
`heap`/`nextId` realize Python object identity for Trade records: `trades`
and `positions` store ids, and closing a position mutates its heap entry. -/
structure EngineSt where
  nextId : ℕ
  heap : List (ℕ × Trade)
  trades : List ℕ
  positions : List (String × ℕ)
  cash : ℚ
  equity : List ℚ
  peak : ℚ
  maxdd : ℚ
deriving DecidableEq, Repr

/-- Dereference a trade id (always present for ids the engine created). -/
def heapGet (heap : List (ℕ × Trade)) (i : ℕ) : Trade :=
  (heap.lookup i).getD default

/-- In-place update of a heap entry (Python attribute mutation on close). -/
def heapSet (heap : List (ℕ × Trade)) (i : ℕ) (t : Trade) : List (ℕ × Trade) :=
  heap.map (fun p => if p.1 = i then (i, t) else p)

/-- Python `del open_positions[key]`. -/
def delKey (key : String) (positions : List (String × ℕ)) : List (String × ℕ) :=
  positions.filter (fun p => p.1 ≠ key)

/-- Embedding of `BacktestEngine._process_signal`.  Returns the id of the
Trade object Python would return (`none` when the signal is ignored) together
with the updated state; only `nextId`, `heap` and `positions` ever change. -/
def processSignal (commission_rate : ℚ) (signal : Signal) (timestamp : ℕ) (row : Bar)
    (st : EngineSt) : Option ℕ × EngineSt :=
  let symbol := signal.symbol.getD ""
  let action := signal.action.getD ""
  let price := signal.price.getD row.close
  let quantity := signal.quantity.getD 0
  if symbol = "" ∨ action = "" ∨ quantity ≤ 0 then
    (none, st)
  else
    let position_key := symbol ++ "_" ++ action
    if action = "BUY" ∨ action = "SELL_SHORT" then
      if (st.positions.lookup position_key).isSome then
        (none, st)  -- position already open
      else
        let trade : Trade :=
          { symbol := symbol
            entry_time := timestamp
            entry_price := price
            quantity := quantity
            side := action
            fees := price * quantity * commission_rate }
        let id := st.nextId
        (some id,
          { st with
              nextId := id + 1
              heap := st.heap ++ [(id, trade)]
              positions := st.positions ++ [(position_key, id)] })
    else if action = "SELL" ∨ action = "COVER" then
      let buy_key := symbol ++ "_BUY"
      let short_key := symbol ++ "_SELL_SHORT"
      let found : Option (String × ℕ) :=
        match st.positions.lookup buy_key with
        | some i => some (buy_key, i)
        | none =>
          match st.positions.lookup short_key with
          | some i => some (short_key, i)
          | none => none
      match found with
      | none => (none, st)  -- no position to close
      | some (key, i) =>
        let position := heapGet st.heap i
        let pnl :=
          if position.side = "BUY" then (price - position.entry_price) * position.quantity
          else (position.entry_price - price) * position.quantity
        let closed : Trade :=
          { position with
              exit_time := some timestamp
              exit_price := some price
              pnl := pnl
              pnl_percent := pnl / (position.entry_price * position.quantity) * 100
              fees := position.fees + price * position.quantity * commission_rate
              is_open := false }
        (some i,
          { st with
              heap := heapSet st.heap i closed
              positions := delKey key st.positions })
    else
      (none, st)

/-- Unrealized profit the replay loop adds to cash when computing an equity
point: it iterates `open_positions.values()` and marks only `BUY` positions
to market at the bar's close (lines 208-211); short positions contribute 0. -/
def unrealizedLong (heap : List (ℕ × Trade)) (positions : List (String × ℕ))
    (close : ℚ) : ℚ :=
  (positions.map (fun p =>
    let pos := heapGet heap p.2
    if pos.side = "BUY" then (close - pos.entry_price) * pos.quantity else 0)).sum

/-- Per-signal body of the replay loop (lines 197-204): append the returned
trade to `trades`; when it comes back closed, credit cash by `pnl - fees`. -/
def applySignal (commission_rate : ℚ) (timestamp : ℕ) (row : Bar)
    (st : EngineSt) (signal : Signal) : EngineSt :=
  let res := processSignal commission_rate signal timestamp row st
  match res.1 with
  | none => res.2
  | some i =>
    let st1 := { res.2 with trades := res.2.trades ++ [i] }
    let tr := heapGet st1.heap i
    if tr.is_open then st1 else { st1 with cash := st1.cash + tr.pnl - tr.fees }

/-- Process all signals of one bar in emission order. -/
def applySignals (commission_rate : ℚ) (timestamp : ℕ) (row : Bar)
    (signals : List Signal) (st : EngineSt) : EngineSt :=
  signals.foldl (applySignal commission_rate timestamp row) st

/-- One iteration of the replay loop (lines 188-224).  A strategy exception
(`Except.error`) skips the whole bar body via `continue`: no signals are
applied and no equity point is appended.  Otherwise: apply the signals,
append `cash + unrealized long P&L` as the equity point, then update the
running peak / max drawdown. -/
def processBar (commission_rate : ℚ) (row : Bar)
    (signals : Except Unit (List Signal)) (st : EngineSt) : EngineSt :=
  match signals with
  | Except.error _ => st
  | Except.ok sigs =>
    let st1 := applySignals commission_rate row.time row sigs st
    let current_equity := st1.cash + unrealizedLong st1.heap st1.positions row.close
    let st2 := { st1 with equity := st1.equity ++ [current_equity] }
    if current_equity > st2.peak then { st2 with peak := current_equity }
    else { st2 with maxdd := max st2.maxdd ((st2.peak - current_equity) / st2.peak) }

/-- Replay of `for i, (timestamp, row) in enumerate(df.iterrows())`, with the
strategy modelled as a function from the bar index to the signals it emits
on that bar (or to an exception). -/
def runFrom (commission_rate : ℚ) (strat : ℕ → Except Unit (List Signal))
    (i : ℕ) (bars : List Bar) (st : EngineSt) : EngineSt :=
  match bars with
  | [] => st
  | row :: rest => runFrom commission_rate strat (i + 1) rest
      (processBar commission_rate row (strat i) st)

/-- Initial engine state (lines 176-181): seed equity point at the initial
capital, empty trade list and position dictionary. -/
def initSt (initial_capital : ℚ) : EngineSt :=
  { nextId := 0, heap := [], trades := [], positions := [], cash := initial_capital,
    equity := [initial_capital], peak := initial_capital, maxdd := 0 }

/-- Force-close of every remaining open position at the last bar's close
(lines 226-252).  Python iterates a snapshot `list(open_positions.items())`
while deleting from the dictionary; each close builds a brand-new Trade (the
original open record is left untouched and still marked open), charges only
the exit fee, and credits cash by `pnl - fees`.  No equity point is added. -/
def forceClose (commission_rate : ℚ) (final_timestamp : ℕ) (final_price : ℚ)
    (st : EngineSt) : EngineSt :=
  st.positions.foldl (fun st kp =>
    let position := heapGet st.heap kp.2
    let pnl :=
      if position.side = "BUY" then (final_price - position.entry_price) * position.quantity
      else (position.entry_price - final_price) * position.quantity
    let exit_trade : Trade :=
      { symbol := position.symbol
        entry_time := position.entry_time
        exit_time := some final_timestamp
        entry_price := position.entry_price
        exit_price := some final_price
        quantity := position.quantity
        side := position.side
        pnl := pnl
        pnl_percent := pnl / (position.entry_price * position.quantity) * 100
        fees := final_price * position.quantity * commission_rate
        is_open := false }
    let id := st.nextId
    { st with
        nextId := id + 1
        heap := st.heap ++ [(id, exit_trade)]
        trades := st.trades ++ [id]
        cash := st.cash + exit_trade.pnl - exit_trade.fees
        positions := delKey kp.1 st.positions }) st

/-- Whole replay including the trailing force-close, as a state. -/
def engineRun (initial_capital commission_rate : ℚ)
    (strat : ℕ → Except Unit (List Signal)) (bars : List Bar) : EngineSt :=
  forceClose commission_rate (bars.getLastD default).time (bars.getLastD default).close
    (runFrom commission_rate strat 0 bars (initSt initial_capital))

/-- Single step of the running-peak drawdown scan of `_calculate_results`
(lines 364-371): state is `(peak, max_dd)`. -/
def ddStep (pd : ℚ × ℚ) (equity : ℚ) : ℚ × ℚ :=
  if equity > pd.1 then (equity, pd.2)
  else (pd.1, max pd.2 ((pd.1 - equity) / pd.1))

/-- Result of the single-pass running-peak scan over the equity curve,
seeded with `peak = initial_capital`, `max_dd = 0`; the code multiplies this
fraction by 100 to obtain `max_drawdown_percent`. -/
def singlePassDD (initial_capital : ℚ) (equity_curve : List ℚ) : ℚ :=
  (equity_curve.foldl ddStep (initial_capital, 0)).2

/-- Embedding of `BacktestEngine._calculate_results` for the fields the
claims use (annualized return, Sharpe/Sortino, per-trade averages and
durations are omitted — no claim mentions them). -/
def calculate_results (initial_capital : ℚ) (strategy_name symbol : String)
    (start_date end_date : ℕ) (trades : List Trade) (equity_curve : List ℚ) :
    BacktestResults :=
  let results : BacktestResults :=
    { strategy_name := strategy_name, symbol := symbol,
      start_date := start_date, end_date := end_date,
      trades := trades, equity_curve := equity_curve }
  if trades = [] then results
  else
    let closed_trades := trades.filter (fun t => !t.is_open)
    if closed_trades = [] then results
    else
      let total_trades := closed_trades.length
      let winning_trades := (closed_trades.filter (fun t => t.pnl > 0)).length
      let losing_trades := (closed_trades.filter (fun t => t.pnl < 0)).length
      let win_rate : ℚ := if total_trades > 0 then (winning_trades : ℚ) / total_trades else 0
      let total_pnl := (closed_trades.map Trade.pnl).sum
      let total_fees := (closed_trades.map Trade.fees).sum
      let total_return := total_pnl - total_fees
      let total_return_percent := total_return / initial_capital * 100
      let results :=
        { results with
            total_trades := total_trades
            winning_trades := winning_trades
            losing_trades := losing_trades
            win_rate := win_rate
            total_return := total_return
            total_return_percent := total_return_percent
            total_fees := total_fees }
      if equity_curve = [] then results
      else
        let scan := equity_curve.foldl ddStep (initial_capital, 0)
        { results with
            max_drawdown := scan.1 - (equity_curve.foldl min (equity_curve.headD 0)
              : ℚ)
            max_drawdown_percent := scan.2 * 100 }

/-- Embedding of `BacktestEngine.run_backtest` after the data fetch: on an
empty bar series it returns the default results object (lines 171-173),
otherwise it replays every bar, force-closes and computes the results. -/
def run_backtest (initial_capital commission_rate : ℚ)
    (strat : ℕ → Except Unit (List Signal)) (strategy_name symbol : String)
    (bars : List Bar) (start_date end_date : ℕ) : BacktestResults :=
  if bars = [] then
    { strategy_name := strategy_name, symbol := symbol,
      start_date := start_date, end_date := end_date }
  else
    let st := engineRun initial_capital commission_rate strat bars
    calculate_results initial_capital strategy_name symbol start_date end_date
      (st.trades.map (heapGet st.heap)) st.equity

/-- Modelled from the spec: the error taxonomy of §7 (`InvalidRangeError`,
`DataUnavailableError`, `NoDataError`).  The source defines no such exception
classes anywhere; the type exists only so that "fails with InvalidRangeError"
is expressible about `run_backtest_full`. -/
inductive BacktestError where
  | invalidRange : BacktestError
  | dataUnavailable : BacktestError
  | noData : BacktestError
deriving DecidableEq, Repr

/-- Embedding of the complete `run_backtest` entry point, with the historical
data fetch abstracted as a function of `(start_date, end_date)`.  The Python
method performs no validation of the date range and never raises on it (its
only guard is the empty-DataFrame early return), so every path is `ok`. -/
def run_backtest_full (fetch : ℕ → ℕ → List Bar)
    (initial_capital commission_rate : ℚ)
    (strat : ℕ → Except Unit (List Signal)) (strategy_name symbol : String)
    (start_date end_date : ℕ) : Except BacktestError BacktestResults :=
  Except.ok (run_backtest initial_capital commission_rate strat strategy_name symbol
    (fetch start_date end_date) start_date end_date)

/-- Embedding of `MockMarketDataService.get_candles` (lines 460-481): the
window handed to a strategy while bar `current_index` is being processed.
Python's default for `limit` is 100.  The returned candle dictionaries carry
exactly the `Bar` fields, so the bars themselves are returned. -/
def get_candles (historical_data : List Bar) (current_index : ℕ) (limit : ℕ) :
    List Bar :=
  let start_idx := if current_index < limit then 0 else current_index - limit + 1
  let end_idx := current_index + 1
  (historical_data.drop start_idx).take (end_idx - start_idx)

/-- Appending distinct-length suffixes to the same string yields distinct
strings (used for the `f"{symbol}_{action}"` position keys). -/
theorem append_ne_of_length_ne (s a b : String) (h : a.length ≠ b.length) :
    s ++ a ≠ s ++ b := by
  intro hab
  apply h
  have hl := congrArg String.length hab
  simp only [String.length_append] at hl
  omega

/-- Claim C10: a signal with a missing/empty symbol, a missing/empty action,
or a non-positive quantity is a complete no-op for `_process_signal`: no
trade is returned and the engine state (positions, cash, everything) is
returned unchanged. -/
theorem invalid_signal_is_noop (commission_rate : ℚ) (signal : Signal)
    (timestamp : ℕ) (row : Bar) (st : EngineSt)
    (h : signal.symbol.getD "" = "" ∨ signal.action.getD "" = "" ∨
      signal.quantity.getD 0 ≤ 0) :
    processSignal commission_rate signal timestamp row st = (none, st) := by
  rcases h with h | h | h <;> simp [processSignal, h]

/-- Witness for `invalid_signal_is_noop` at a concrete zero-quantity signal. -/
theorem invalid_signal_is_noop_witness :
    processSignal (1/1000)
      { symbol := some "BTCINR", action := some "BUY", quantity := some 0 }
      0 default (initSt 10000) = (none, initSt 10000) :=
  invalid_signal_is_noop (1/1000) _ 0 default (initSt 10000)
    (Or.inr (Or.inr (by decide)))

/-- Engine state in which both a long position (key `s_BUY`, trade id `i1`)
and a short position (key `s_SELL_SHORT`, trade id `i2`) are open for the
same symbol `s` — the situation claim C9 is about. -/
def twoPosSt (s : String) (t1 t2 : Trade) (i1 i2 n : ℕ) (tr : List ℕ)
    (c pk dd : ℚ) (eq : List ℚ) : EngineSt :=
  { nextId := n, heap := [(i1, t1), (i2, t2)], trades := tr,
    positions := [(s ++ "_BUY", i1), (s ++ "_SELL_SHORT", i2)],
    cash := c, equity := eq, peak := pk, maxdd := dd }

/-- Claim C9: with both a long and a short open on the same symbol, a single
SELL or COVER signal closes exactly the long position (the `buy_key` branch
is checked first): the long's record is closed and its key removed, the
short's record and key are untouched; a subsequent close signal then closes
the short, emptying the position dictionary. -/
theorem close_prefers_long (commission_rate : ℚ) (s : String) (hs : s ≠ "")
    (t1 t2 : Trade) (i1 i2 n : ℕ) (hi : i1 ≠ i2) (tr : List ℕ)
    (c pk dd : ℚ) (eq : List ℚ) (act1 act2 : String)
    (ha1 : act1 = "SELL" ∨ act1 = "COVER")
    (ha2 : act2 = "SELL" ∨ act2 = "COVER")
    (p1 p2 q1 q2 : ℚ) (hq1 : 0 < q1) (hq2 : 0 < q2) (tm1 tm2 : ℕ)
    (row1 row2 : Bar) :
    (processSignal commission_rate
        { symbol := some s, action := some act1, price := some p1, quantity := some q1 }
        tm1 row1 (twoPosSt s t1 t2 i1 i2 n tr c pk dd eq)).1 = some i1 ∧
    (processSignal commission_rate
        { symbol := some s, action := some act1, price := some p1, quantity := some q1 }
        tm1 row1 (twoPosSt s t1 t2 i1 i2 n tr c pk dd eq)).2.positions
      = [(s ++ "_SELL_SHORT", i2)] ∧
    (heapGet (processSignal commission_rate
        { symbol := some s, action := some act1, price := some p1, quantity := some q1 }
        tm1 row1 (twoPosSt s t1 t2 i1 i2 n tr c pk dd eq)).2.heap i1).is_open = false ∧
    heapGet (processSignal commission_rate
        { symbol := some s, action := some act1, price := some p1, quantity := some q1 }
        tm1 row1 (twoPosSt s t1 t2 i1 i2 n tr c pk dd eq)).2.heap i2 = t2 ∧
    (processSignal commission_rate
        { symbol := some s, action := some act2, price := some p2, quantity := some q2 }
        tm2 row2 (processSignal commission_rate
          { symbol := some s, action := some act1, price := some p1, quantity := some q1 }
          tm1 row1 (twoPosSt s t1 t2 i1 i2 n tr c pk dd eq)).2).1 = some i2 ∧
    (processSignal commission_rate
        { symbol := some s, action := some act2, price := some p2, quantity := some q2 }
        tm2 row2 (processSignal commission_rate
          { symbol := some s, action := some act1, price := some p1, quantity := some q1 }
          tm1 row1 (twoPosSt s t1 t2 i1 i2 n tr c pk dd eq)).2).2.positions = [] := by
  have hk1 : s ++ "_BUY" ≠ s ++ "_SELL_SHORT" :=
    append_ne_of_length_ne s "_BUY" "_SELL_SHORT" (by decide)
  have hk2 : s ++ "_SELL_SHORT" ≠ s ++ "_BUY" := hk1.symm
  have hb1 : (i2 == i1) = false := beq_eq_false_iff_ne.mpr (Ne.symm hi)
  have hb2 : (i1 == i2) = false := beq_eq_false_iff_ne.mpr hi
  have hbk1 : ((s ++ "_BUY") == (s ++ "_SELL_SHORT")) = false :=
    beq_eq_false_iff_ne.mpr hk1
  have hbk2 : ((s ++ "_SELL_SHORT") == (s ++ "_BUY")) = false :=
    beq_eq_false_iff_ne.mpr hk2
  rcases ha1 with rfl | rfl <;> rcases ha2 with rfl | rfl <;>
    simp [processSignal, twoPosSt, heapGet, heapSet, delKey, List.lookup, hs,
      hq1.not_le, hq2.not_le, hi, Ne.symm hi, hk1, hk2, hb1, hb2, hbk1, hbk2]

/-- Witness for `close_prefers_long` at concrete values. -/
theorem close_prefers_long_witness :
    (processSignal (1/1000)
        { symbol := some "B", action := some "SELL", price := some 110, quantity := some 10 }
        5 default (twoPosSt "B" default default 0 1 2 [] 0 0 0 [])).1 = some 0 :=
  (close_prefers_long (1/1000) "B" (by decide) default default 0 1 2 (by decide)
    [] 0 0 0 [] "SELL" "COVER" (Or.inl rfl) (Or.inr rfl) 110 100 10 10
    (by norm_num) (by norm_num) 5 6 default default).1

/-- Flat bar at price `c` with timestamp `t`. -/
def mkBar (t : ℕ) (c : ℚ) : Bar := ⟨t, c, c, c, c, 1⟩

/-- Six-bar series for the single-round-trip scenario: close 100 on bars
0-4, close 110 on bar 5. -/
def bars6 : List Bar :=
  [mkBar 0 100, mkBar 1 100, mkBar 2 100, mkBar 3 100, mkBar 4 100, mkBar 5 110]

/-- Strategy of the round-trip scenario: OPEN_LONG (action `BUY`) qty 10 at
price 100 on bar 0, CLOSE (action `SELL`) at price 110 on bar 5. -/
def stratRT : ℕ → Except Unit (List Signal) := fun i =>
  if i = 0 then
    Except.ok [{ symbol := some "BTCINR", action := some "BUY",
                 price := some 100, quantity := some 10 }]
  else if i = 5 then
    Except.ok [{ symbol := some "BTCINR", action := some "SELL",
                 price := some 110, quantity := some 10 }]
  else Except.ok []

/-- Results of the round-trip scenario with `initialCapital = 10000`,
`commissionRate = 0.001`. -/
def rtResults : BacktestResults :=
  run_backtest 10000 (1/1000) stratRT "strategy" "BTCINR" bars6 0 5

/-- String literals of different lengths are distinct (propositional form,
usable as a simp rewrite while evaluating the engine on concrete runs). -/
theorem str_eq_false_of_length_ne (a b : String) (h : a.length ≠ b.length) :
    (a = b) = False :=
  eq_false (fun hab => h (congrArg String.length hab))

/-- Open-long trade record created on bar 0 of the round-trip scenario:
entry fee 100 × 10 × 0.001 = 1 is recorded on the trade. -/
def rtT0 : Trade :=
  { symbol := "BTCINR", entry_time := 0, entry_price := 100, quantity := 10,
    side := "BUY", fees := 1 }

/-- Engine state after bar 0 of the round-trip scenario (parameterized by
the equity curve accumulated so far). -/
def rtS1 (eqc : List ℚ) : EngineSt :=
  { nextId := 1, heap := [(0, rtT0)], trades := [0],
    positions := [("BTCINR_BUY", 0)], cash := 10000, equity := eqc,
    peak := 10000, maxdd := 0 }

/-- Closed round-trip trade record after bar 5: pnl 100, total fees
1 + 1.1 = 2.1, exactly the per-trade numbers of the spec scenario. -/
def rtT0c : Trade :=
  { symbol := "BTCINR", entry_time := 0, exit_time := some 5, entry_price := 100,
    exit_price := some 110, quantity := 10, side := "BUY", pnl := 100,
    pnl_percent := 10, fees := 21/10, is_open := false }

/-- Engine state after bar 5 of the round-trip scenario: cash
10000 + 100 − 2.1 = 10097.9, and trade id 0 recorded twice. -/
def rtS6 (eqc : List ℚ) : EngineSt :=
  { nextId := 1, heap := [(0, rtT0c)], trades := [0, 0], positions := [],
    cash := 100979/10, equity := eqc ++ [100979/10], peak := 100979/10, maxdd := 0 }

theorem rt_bar0_eval : processBar (1/1000) (mkBar 0 100) (stratRT 0) (initSt 10000)
    = rtS1 [10000, 10000] := by
  norm_num [processBar, applySignals, applySignal, processSignal, initSt, heapGet,
    heapSet, delKey, unrealizedLong, stratRT, mkBar, List.lookup, rtS1, rtT0,
    (show ("BTCINR" ++ "_" ++ "BUY" : String) = "BTCINR_BUY" from rfl),
    str_eq_false_of_length_ne "BTCINR" "" (by decide),
    str_eq_false_of_length_ne "BUY" "" (by decide),
    str_eq_false_of_length_ne "BUY" "SELL_SHORT" (by decide)]

theorem rt_midbar_eval (t : ℕ) (eqc : List ℚ) :
    processBar (1/1000) (mkBar t 100) (Except.ok []) (rtS1 eqc) = rtS1 (eqc ++ [10000]) := by
  norm_num [processBar, applySignals, applySignal, unrealizedLong, heapGet,
    mkBar, List.lookup, rtS1, rtT0]

theorem rt_bar5_eval (eqc : List ℚ) : processBar (1/1000) (mkBar 5 110) (stratRT 5) (rtS1 eqc)
    = rtS6 eqc := by
  norm_num [processBar, applySignals, applySignal, processSignal, heapGet,
    heapSet, delKey, unrealizedLong, stratRT, mkBar, List.lookup, rtS1, rtT0, rtS6, rtT0c,
    (show ("BTCINR" ++ "_BUY" : String) = "BTCINR_BUY" from rfl),
    (show ("BTCINR" ++ "_SELL_SHORT" : String) = "BTCINR_SELL_SHORT" from rfl),
    str_eq_false_of_length_ne "BTCINR" "" (by decide),
    str_eq_false_of_length_ne "SELL" "" (by decide),
    str_eq_false_of_length_ne "SELL" "BUY" (by decide),
    str_eq_false_of_length_ne "SELL" "SELL_SHORT" (by decide)]

theorem stratRT_mid : ∀ t, t ≠ 0 → t ≠ 5 → stratRT t = Except.ok [] := by
  intro t h0 h5; simp [stratRT, h0, h5]

theorem runFrom_rt : runFrom (1/1000) stratRT 0 bars6 (initSt 10000)
    = rtS6 [10000, 10000, 10000, 10000, 10000, 10000] := by
  have e1 := rt_midbar_eval 1 [10000, 10000]
  have e2 := rt_midbar_eval 2 [10000, 10000, 10000]
  have e3 := rt_midbar_eval 3 [10000, 10000, 10000, 10000]
  have e4 := rt_midbar_eval 4 [10000, 10000, 10000, 10000, 10000]
  norm_num [runFrom, bars6, rt_bar0_eval, stratRT_mid 1, stratRT_mid 2, stratRT_mid 3,
    stratRT_mid 4, e1, e2, e3, e4, rt_bar5_eval, rtS6]

theorem engineRun_rt : engineRun 10000 (1/1000) stratRT bars6
    = rtS6 [10000, 10000, 10000, 10000, 10000, 10000] := by
  unfold engineRun
  rw [runFrom_rt]
  unfold forceClose
  simp [rtS6]

/-- Expected results record of the round-trip scenario, read off from the
embedded engine: note `total_trades = 2` and `total_return_percent = 979/500`
(i.e. 1.958), double the spec scenario's values, because the closed trade
appears twice in the trade list. -/
def RTexpected : BacktestResults :=
  { strategy_name := "strategy", symbol := "BTCINR", start_date := 0, end_date := 5,
    total_trades := 2, winning_trades := 2, losing_trades := 0, win_rate := 1,
    total_return := 979/5, total_return_percent := 979/500,
    max_drawdown := 979/10, max_drawdown_percent := 0, total_fees := 21/5,
    trades := [rtT0c, rtT0c],
    equity_curve := [10000, 10000, 10000, 10000, 10000, 10000, 100979/10] }

theorem rtResults_eq : rtResults = RTexpected := by
  unfold rtResults run_backtest
  rw [if_neg (by simp [bars6] : ¬ bars6 = [])]
  rw [engineRun_rt]
  norm_num [rtS6, rtT0c, calculate_results, heapGet, List.lookup, ddStep, RTexpected]
  simp

/-- Claim C3 (code-bug evidence): on the single-round-trip scenario the
engine records the round trip twice — the open-time `trades.append` entry is
the very object mutated and appended again on close — so `total_trades = 2`
and `total_return_percent = 1.958` (double the claimed ≈0.979), while the
per-trade numbers (pnl 100, fees 2.1) and the final equity 10097.9 are
exactly as the claim states. -/
theorem rt_scenario_eval :
    rtResults.total_trades = 2 ∧
    rtResults.total_return_percent = 979 / 500 ∧
    (rtResults.trades.headD default).pnl = 100 ∧
    (rtResults.trades.headD default).fees = 21 / 10 ∧
    rtResults.trades.length = 2 ∧
    rtResults.equity_curve.getLastD 0 = 100979 / 10 := by
  rw [rtResults_eq]
  norm_num [RTexpected, rtT0c, List.getLastD]

/-- Claim C1 (code-bug evidence): on the single-round-trip scenario the
final equity is 10097.9 = 10000 + 97.9, but the sum of `pnl - fees` over the
recorded trade list is 195.8 (the closed trade is recorded twice; for
force-closed positions the entry fee is conversely never debited), so
`finalEquity = initialCapital + sum(trade.pnl - trade.fees)` fails on the
code. -/
theorem capital_conservation_fails :
    rtResults.equity_curve.getLastD 0 = 100979 / 10 ∧
    (rtResults.trades.map (fun t => t.pnl - t.fees)).sum = 979 / 5 ∧
    ¬ (rtResults.equity_curve.getLastD 0
        = 10000 + (rtResults.trades.map (fun t => t.pnl - t.fees)).sum) := by
  rw [rtResults_eq]
  norm_num [RTexpected, rtT0c, List.getLastD]

/-- Association-list lookup skips a prefix in which the key is absent. -/
theorem lookup_append_of_none {α β : Type} [BEq α] (l1 l2 : List (α × β)) (a : α)
    (h : l1.lookup a = none) : (l1 ++ l2).lookup a = l2.lookup a := by
  induction l1 with
  | nil => simp
  | cons x t ih =>
    rcases x with ⟨k, v⟩
    simp only [List.cons_append, List.lookup] at h ⊢
    rcases hb : (a == k) with _ | _
    · simp only [hb] at h ⊢
      exact ih h
    · simp only [hb] at h
      exact absurd h (by simp)

/-- Signal dictionary with all four keys present, as the scenario
strategies emit them. -/
def mkSig (s act : String) (p q : ℚ) : Signal :=
  { symbol := some s, action := some act, price := some p, quantity := some q }

/-- Claim C5 (amended): processing an open signal (`BUY` or `SELL_SHORT`)
returns a fresh trade whose `fees` field records the entry fee
`price × quantity × commissionRate`, but leaves `cash` unchanged — the fee
is not deducted from cash at open time (it is deducted only when the trade
closes, as part of `pnl - fees`; for force-closed positions it is never
deducted at all). -/
theorem open_records_fee_without_cash_debit (cr : ℚ) (s act : String)
    (p q : ℚ) (t : ℕ) (row : Bar) (st : EngineSt) (hs : s ≠ "")
    (ha : act = "BUY" ∨ act = "SELL_SHORT") (hq : 0 < q)
    (hkey : st.positions.lookup (s ++ "_" ++ act) = none)
    (hheap : st.heap.lookup st.nextId = none) :
    (processSignal cr (mkSig s act p q) t row st).2.cash = st.cash ∧
    (processSignal cr (mkSig s act p q) t row st).1 = some st.nextId ∧
    (heapGet (processSignal cr (mkSig s act p q) t row st).2.heap st.nextId).fees
      = p * q * cr ∧
    (heapGet (processSignal cr (mkSig s act p q) t row st).2.heap st.nextId).is_open
      = true := by
  rcases ha with rfl | rfl <;>
    simp [processSignal, mkSig, hs, hq.not_le, hkey, heapGet,
      lookup_append_of_none _ _ _ hheap, List.lookup]

/-- Witness for `open_records_fee_without_cash_debit` at a concrete input. -/
theorem open_records_fee_without_cash_debit_witness :
    (processSignal (1/1000) (mkSig "B" "BUY" 100 10) 0 default (initSt 500)).2.cash
      = (initSt 500).cash ∧
    (processSignal (1/1000) (mkSig "B" "BUY" 100 10) 0 default (initSt 500)).1
      = some (initSt 500).nextId ∧
    (heapGet (processSignal (1/1000) (mkSig "B" "BUY" 100 10) 0 default
      (initSt 500)).2.heap (initSt 500).nextId).fees = 100 * 10 * (1/1000) ∧
    (heapGet (processSignal (1/1000) (mkSig "B" "BUY" 100 10) 0 default
      (initSt 500)).2.heap (initSt 500).nextId).is_open = true :=
  open_records_fee_without_cash_debit (1/1000) "B" "BUY" 100 10 0 default
    (initSt 500) (by decide) (Or.inl rfl) (by norm_num) rfl rfl

/-- Single-bar series for the open-only scenario. -/
def bars1 : List Bar := [mkBar 0 100]

/-- Strategy that opens a long (BUY qty 10 price 100) on every bar. -/
def stratOpen : ℕ → Except Unit (List Signal) := fun _ =>
  Except.ok [mkSig "BTCINR" "BUY" 100 10]

/-- Results of the open-only scenario (`initialCapital = 10000`,
`commissionRate = 0.001`): the position is force-closed at the window end. -/
def openResults : BacktestResults :=
  run_backtest 10000 (1/1000) stratOpen "strategy" "BTCINR" bars1 0 1

/-- Force-closed trade of the open-only scenario: only the exit fee 1 is
charged on it; the entry fee sits on the (still-open) entry record. -/
def openFcT : Trade :=
  { symbol := "BTCINR", entry_time := 0, exit_time := some 0, entry_price := 100,
    exit_price := some 100, quantity := 10, side := "BUY", pnl := 0,
    pnl_percent := 0, fees := 1, is_open := false }

/-- Engine state after the force-close of the open-only scenario: cash is
9999 — only the exit fee was ever debited, the entry fee never was. -/
def openSt2 : EngineSt :=
  { nextId := 2, heap := [(0, rtT0), (1, openFcT)], trades := [0, 1],
    positions := [], cash := 9999, equity := [10000, 10000],
    peak := 10000, maxdd := 0 }

theorem openRun_eval : engineRun 10000 (1/1000) stratOpen bars1 = openSt2 := by
  have h0 : processBar (1/1000) (mkBar 0 100) (stratOpen 0) (initSt 10000)
      = rtS1 [10000, 10000] := by
    norm_num [processBar, applySignals, applySignal, processSignal, initSt, heapGet,
      heapSet, delKey, unrealizedLong, stratOpen, mkSig, mkBar, List.lookup, rtS1, rtT0,
      (show ("BTCINR" ++ "_" ++ "BUY" : String) = "BTCINR_BUY" from rfl),
      str_eq_false_of_length_ne "BTCINR" "" (by decide),
      str_eq_false_of_length_ne "BUY" "" (by decide),
      str_eq_false_of_length_ne "BUY" "SELL_SHORT" (by decide)]
  unfold engineRun
  rw [show runFrom (1/1000) stratOpen 0 bars1 (initSt 10000)
      = rtS1 [10000, 10000] by rw [bars1]; rw [runFrom, runFrom, h0]]
  unfold forceClose
  norm_num [rtS1, rtT0, heapGet, delKey, List.lookup, openSt2, openFcT, bars1, mkBar]

/-- Expected results of the open-only scenario. -/
def OpenExpected : BacktestResults :=
  { strategy_name := "strategy", symbol := "BTCINR", start_date := 0, end_date := 1,
    total_trades := 1, winning_trades := 0, losing_trades := 0, win_rate := 0,
    total_return := -1, total_return_percent := -1/100,
    max_drawdown := 0, max_drawdown_percent := 0, total_fees := 1,
    trades := [rtT0, openFcT], equity_curve := [10000, 10000] }

theorem openResults_eq : openResults = OpenExpected := by
  unfold openResults run_backtest
  rw [if_neg (by simp [bars1] : ¬ bars1 = [])]
  rw [openRun_eval]
  norm_num [openSt2, rtT0, openFcT, calculate_results, heapGet, List.lookup,
    ddStep, OpenExpected]
  simp
  norm_num

/-- Claim C5 (counterexample): opening a long with entry fee 1 on bar 0
leaves the bar-0 equity point at the full initial capital 10000 — cash is
not debited by the entry fee at open time, so equity does not drop by the
fee on the bar where the open occurs (it would be 9999 if the claim held);
the fee is only recorded on the trade itself. -/
theorem open_bar_equity_not_debited :
    openResults.equity_curve = [10000, 10000] ∧
    (openResults.trades.headD default).fees = 1 ∧
    ¬ (openResults.equity_curve.getD 1 0 = 10000 - 1) := by
  rw [openResults_eq]
  norm_num [OpenExpected, rtT0]

/-- Signal processing never touches the equity curve. -/
theorem processSignal_equity (cr : ℚ) (sig : Signal) (t : ℕ) (row : Bar)
    (st : EngineSt) : (processSignal cr sig t row st).2.equity = st.equity := by
  unfold processSignal
  dsimp only
  repeat' split
  all_goals simp

/-- Signal processing itself never touches cash (cash moves only in the
replay loop, when the returned trade comes back closed). -/
theorem processSignal_cash (cr : ℚ) (sig : Signal) (t : ℕ) (row : Bar)
    (st : EngineSt) : (processSignal cr sig t row st).2.cash = st.cash := by
  unfold processSignal
  dsimp only
  repeat' split
  all_goals simp

/-- One signal application leaves the equity curve unchanged. -/
theorem applySignal_equity (cr : ℚ) (t : ℕ) (row : Bar) (st : EngineSt)
    (sig : Signal) : (applySignal cr t row st sig).equity = st.equity := by
  have h := processSignal_equity cr sig t row st
  unfold applySignal
  rcases hx : (processSignal cr sig t row st).1 with _ | i <;> simp only [hx]
  · exact h
  · split <;> simp [h]

/-- A bar's whole signal batch leaves the equity curve unchanged. -/
theorem applySignals_equity (cr : ℚ) (t : ℕ) (row : Bar) (l : List Signal)
    (st : EngineSt) : (applySignals cr t row l st).equity = st.equity := by
  induction l generalizing st with
  | nil => rfl
  | cons s rest ih =>
    show (applySignals cr t row rest (applySignal cr t row st s)).equity = st.equity
    rw [ih, applySignal_equity]

/-- A successfully processed bar appends exactly one equity point: the
post-signal cash plus `unrealizedLong` (the BUY-only mark-to-market at the
bar's close). -/
theorem processBar_equity_point (cr : ℚ) (row : Bar) (l : List Signal) (st : EngineSt) :
    (processBar cr row (Except.ok l) st).equity =
      st.equity ++ [(applySignals cr row.time row l st).cash +
        unrealizedLong (applySignals cr row.time row l st).heap
          (applySignals cr row.time row l st).positions row.close] := by
  simp only [processBar]
  split <;> simp [applySignals_equity]

/-- Claim C6 (amended): the equity point recorded for a bar equals the
post-signal cash plus the mark-to-market unrealized P&L of open LONG
positions only — a position whose side is not `BUY` (i.e. a short opened by
`SELL_SHORT`) contributes exactly 0 to the equity point, whatever the bar's
close price. -/
theorem equity_point_marks_longs_only (cr : ℚ) (row : Bar) (l : List Signal)
    (st : EngineSt) :
    (processBar cr row (Except.ok l) st).equity =
      st.equity ++ [(applySignals cr row.time row l st).cash +
        ((applySignals cr row.time row l st).positions.map (fun p =>
          let pos := heapGet (applySignals cr row.time row l st).heap p.2
          if pos.side = "BUY" then (row.close - pos.entry_price) * pos.quantity
          else 0)).sum] := by
  rw [processBar_equity_point]
  simp [unrealizedLong]

/-- Two-bar series for the short scenario: close 100, then close 90. -/
def barsShort : List Bar := [mkBar 0 100, mkBar 1 90]

/-- Strategy that opens a short (SELL_SHORT qty 1 price 100) on bar 0. -/
def stratShort : ℕ → Except Unit (List Signal) := fun i =>
  if i = 0 then Except.ok [mkSig "BTCINR" "SELL_SHORT" 100 1] else Except.ok []

/-- Results of the short scenario (`initialCapital = 1000`,
`commissionRate = 0.001`). -/
def shortResults : BacktestResults :=
  run_backtest 1000 (1/1000) stratShort "strategy" "BTCINR" barsShort 0 1

/-- Open short-trade record of the short scenario (entry fee 0.1). -/
def shT0 : Trade :=
  { symbol := "BTCINR", entry_time := 0, entry_price := 100, quantity := 1,
    side := "SELL_SHORT", fees := 1/10 }

/-- Engine state after bar 0 of the short scenario. -/
def shS1 (eqc : List ℚ) : EngineSt :=
  { nextId := 1, heap := [(0, shT0)], trades := [0],
    positions := [("BTCINR_SELL_SHORT", 0)], cash := 1000, equity := eqc,
    peak := 1000, maxdd := 0 }

/-- Force-closed short trade: pnl (100-90)×1 = 10, exit fee 0.09. -/
def shFcT : Trade :=
  { symbol := "BTCINR", entry_time := 0, exit_time := some 1, entry_price := 100,
    exit_price := some 90, quantity := 1, side := "SELL_SHORT", pnl := 10,
    pnl_percent := 10, fees := 9/100, is_open := false }

/-- Engine state of the short scenario after the force-close. -/
def shSt2 : EngineSt :=
  { nextId := 2, heap := [(0, shT0), (1, shFcT)], trades := [0, 1],
    positions := [], cash := 100991/100, equity := [1000, 1000, 1000],
    peak := 1000, maxdd := 0 }

theorem shortRun_eval : engineRun 1000 (1/1000) stratShort barsShort = shSt2 := by
  have h0 : processBar (1/1000) (mkBar 0 100) (stratShort 0) (initSt 1000)
      = shS1 [1000, 1000] := by
    norm_num [processBar, applySignals, applySignal, processSignal, initSt, heapGet,
      heapSet, delKey, unrealizedLong, stratShort, mkSig, mkBar, List.lookup, shS1, shT0,
      (show ("BTCINR" ++ "_" ++ "SELL_SHORT" : String) = "BTCINR_SELL_SHORT" from rfl),
      str_eq_false_of_length_ne "BTCINR" "" (by decide),
      str_eq_false_of_length_ne "SELL_SHORT" "" (by decide),
      str_eq_false_of_length_ne "SELL_SHORT" "BUY" (by decide)]
  have h1 : processBar (1/1000) (mkBar 1 90) (Except.ok []) (shS1 [1000, 1000])
      = shS1 [1000, 1000, 1000] := by
    norm_num [processBar, applySignals, applySignal, unrealizedLong, heapGet,
      mkBar, List.lookup, shS1, shT0,
      str_eq_false_of_length_ne "SELL_SHORT" "BUY" (by decide)]
  unfold engineRun
  rw [show runFrom (1/1000) stratShort 0 barsShort (initSt 1000)
      = shS1 [1000, 1000, 1000] by
    rw [barsShort, runFrom, h0, runFrom,
      show stratShort 1 = Except.ok [] by norm_num [stratShort], h1, runFrom]]
  unfold forceClose
  norm_num [shS1, shT0, heapGet, delKey, List.lookup, shSt2, shFcT, barsShort, mkBar,
    str_eq_false_of_length_ne "SELL_SHORT" "BUY" (by decide)]

/-- Expected results of the short scenario. -/
def ShortExpected : BacktestResults :=
  { strategy_name := "strategy", symbol := "BTCINR", start_date := 0, end_date := 1,
    total_trades := 1, winning_trades := 1, losing_trades := 0, win_rate := 1,
    total_return := 991/100, total_return_percent := 991/1000,
    max_drawdown := 0, max_drawdown_percent := 0, total_fees := 9/100,
    trades := [shT0, shFcT], equity_curve := [1000, 1000, 1000] }

theorem shortResults_eq : shortResults = ShortExpected := by
  unfold shortResults run_backtest
  rw [if_neg (by simp [barsShort] : ¬ barsShort = [])]
  rw [shortRun_eval]
  norm_num [shSt2, shT0, shFcT, calculate_results, heapGet, List.lookup,
    ddStep, ShortExpected,
    str_eq_false_of_length_ne "SELL_SHORT" "BUY" (by decide)]
  simp
  norm_num

/-- Claim C6 (counterexample): with a short position (SELL_SHORT qty 1 at
100) open and the bar-1 close at 90, the short's unrealized P&L is
(100-90)×1 = 10, but the recorded equity point is 1000, not 1000 + 10: the
loop marks only BUY positions to market, never shorts. -/
theorem short_not_marked_to_market :
    shortResults.equity_curve.getD 2 0 = 1000 ∧
    ¬ (shortResults.equity_curve.getD 2 0 = 1000 + (100 - 90) * 1) := by
  rw [shortResults_eq]
  norm_num [ShortExpected]

/-- The force-close loop never touches the equity curve: no final equity
point is appended after the remaining positions are closed. -/
theorem forceClose_equity (cr : ℚ) (t : ℕ) (p : ℚ) (st : EngineSt) :
    (forceClose cr t p st).equity = st.equity := by
  unfold forceClose
  generalize st.positions = l
  induction l generalizing st with
  | nil => rfl
  | cons kp rest ih =>
    rw [List.foldl_cons, ih]

/-- Length of the replay equity curve: one point per bar whose strategy
call succeeded; bars where the strategy raised contribute nothing. -/
theorem runFrom_equity_len (cr : ℚ) (strat : ℕ → Except Unit (List Signal)) :
    ∀ (bars : List Bar) (i : ℕ) (st : EngineSt),
    (runFrom cr strat i bars st).equity.length =
      st.equity.length +
        ((List.range' i bars.length).filter (fun j => (strat j).isOk)).length := by
  intro bars
  induction bars with
  | nil => intro i st; simp [runFrom]
  | cons b rest ih =>
    intro i st
    show (runFrom cr strat (i+1) rest (processBar cr b (strat i) st)).equity.length = _
    rw [ih]
    rcases hs : strat i with e | l
    · rw [show processBar cr b (Except.error e) st = st from rfl]
      rw [show List.range' i (b :: rest).length = i :: List.range' (i+1) rest.length
        from rfl]
      simp [hs, Except.isOk, Except.toBool, List.filter_cons]
    · have hlen := congrArg List.length (processBar_equity_point cr b l st)
      simp only [List.length_append, List.length_singleton] at hlen
      rw [hlen]
      rw [show List.range' i (b :: rest).length = i :: List.range' (i+1) rest.length
        from rfl]
      simp [hs, Except.isOk, Except.toBool, List.filter_cons]
      omega

/-- The replay only ever appends to the equity curve it starts from. -/
theorem runFrom_equity_head (cr : ℚ) (strat : ℕ → Except Unit (List Signal)) :
    ∀ (bars : List Bar) (i : ℕ) (st : EngineSt),
    ∃ tail, (runFrom cr strat i bars st).equity = st.equity ++ tail := by
  intro bars
  induction bars with
  | nil => intro i st; exact ⟨[], by simp [runFrom]⟩
  | cons b rest ih =>
    intro i st
    obtain ⟨t2, h2⟩ := ih (i+1) (processBar cr b (strat i) st)
    show ∃ tail, (runFrom cr strat (i+1) rest (processBar cr b (strat i) st)).equity
      = st.equity ++ tail
    rcases hs : strat i with e | l
    · rw [hs] at h2
      rw [show processBar cr b (Except.error e) st = st from rfl] at h2
      exact ⟨t2, h2⟩
    · rw [hs] at h2
      rw [processBar_equity_point] at h2
      exact ⟨_, by rw [h2, List.append_assoc]⟩

/-- Claim C7 (amended): the equity curve of a completed replay (force-close
included) has exactly 1 + (number of bars whose strategy call did not
raise) points — a bar where the strategy raises contributes no equity
point, and no additional point is appended after the force-close — and its
first point is the seed at the initial capital. -/
theorem equity_curve_length_and_seed (initial_capital commission_rate : ℚ)
    (strat : ℕ → Except Unit (List Signal)) (bars : List Bar) :
    (engineRun initial_capital commission_rate strat bars).equity.length =
      1 + ((List.range bars.length).filter (fun j => (strat j).isOk)).length ∧
    (engineRun initial_capital commission_rate strat bars).equity.head?
      = some initial_capital := by
  constructor
  · unfold engineRun
    rw [forceClose_equity, runFrom_equity_len, List.range_eq_range']
    simp [initSt]
    try omega
  · unfold engineRun
    rw [forceClose_equity]
    obtain ⟨tail, h⟩ := runFrom_equity_head commission_rate strat bars 0
      (initSt initial_capital)
    rw [h]
    simp [initSt]

/-- Strategy raising an exception on bar 1 and emitting nothing on bar 0. -/
def stratErr : ℕ → Except Unit (List Signal) := fun i =>
  if i = 1 then Except.error () else Except.ok []

/-- Results of the exception scenario on the two-bar series. -/
def errResults : BacktestResults :=
  run_backtest 1000 (1/1000) stratErr "strategy" "BTCINR" barsShort 0 1

/-- Engine state after the exception scenario: bar 1 is skipped entirely,
so only bar 0 contributed an equity point. -/
def errSt : EngineSt :=
  { nextId := 0, heap := [], trades := [], positions := [], cash := 1000,
    equity := [1000, 1000], peak := 1000, maxdd := 0 }

theorem errRun_eval : engineRun 1000 (1/1000) stratErr barsShort = errSt := by
  have h0 : processBar (1/1000) (mkBar 0 100) (stratErr 0) (initSt 1000) = errSt := by
    norm_num [processBar, applySignals, applySignal, unrealizedLong, stratErr,
      initSt, mkBar, errSt]
  unfold engineRun
  rw [show runFrom (1/1000) stratErr 0 barsShort (initSt 1000) = errSt by
    rw [barsShort, runFrom, h0, runFrom,
      show stratErr 1 = Except.error () by norm_num [stratErr],
      show processBar (1/1000) (mkBar 1 90) (Except.error ()) errSt = errSt from rfl,
      runFrom]]
  unfold forceClose
  norm_num [errSt]

/-- Expected results of the exception scenario: empty trade list, two-point
equity curve, default statistics. -/
def ErrExpected : BacktestResults :=
  { strategy_name := "strategy", symbol := "BTCINR", start_date := 0,
    end_date := 1, trades := [], equity_curve := [1000, 1000] }

/-- Claim C7 (counterexample): with two bars and a strategy that raises on
bar 1, the equity curve has 2 points, not bars + 1 = 3: the per-bar
`except/continue` skips the equity append for the failing bar, so the
"holds even when the strategy raises" part of the claim is false. -/
theorem equity_curve_length_fails_on_exception :
    errResults.equity_curve.length = 2 ∧
    barsShort.length + 1 = 3 ∧
    ¬ (errResults.equity_curve.length = barsShort.length + 1) := by
  have h : errResults = ErrExpected := by
    unfold errResults run_backtest
    rw [if_neg (by simp [barsShort] : ¬ barsShort = [])]
    rw [errRun_eval]
    norm_num [errSt, calculate_results, ErrExpected]
  rw [h]
  norm_num [barsShort, ErrExpected]

/-- Default results object returned for an empty bar series (the early
return of `run_backtest` at lines 171-173). -/
def emptyResults (name sym : String) (s e : ℕ) : BacktestResults :=
  { strategy_name := name, symbol := sym, start_date := s, end_date := e }

/-- Strategy that never emits a signal. -/
def stratNil : ℕ → Except Unit (List Signal) := fun _ => Except.ok []

/-- Claim C8 (counterexample): calling the engine with start = 5 ≥ end = 3
completes normally with an ordinary zero-trade result — it does not fail
with `InvalidRangeError` (no such validation or exception exists anywhere
in the code; the only guard is the empty-data early return). -/
theorem no_invalid_range_check :
    (run_backtest_full (fun _ _ => []) 10000 (1/1000) stratNil
      "strategy" "BTCINR" 5 3).isOk = true ∧
    Except.map BacktestResults.total_trades
      (run_backtest_full (fun _ _ => []) 10000 (1/1000) stratNil
        "strategy" "BTCINR" 5 3) = Except.ok 0 := by
  constructor <;> rfl

/-- Claim C8 (amended): `run_backtest` performs no validation of the date
range.  For any start ≥ end it proceeds to fetch the data; when the fetch
yields no bars (the realistic outcome of an inverted range) the call
returns the ordinary empty `BacktestResults`, not an error. -/
theorem inverted_range_returns_ordinary_result (fetch : ℕ → ℕ → List Bar)
    (initial_capital commission_rate : ℚ) (strat : ℕ → Except Unit (List Signal))
    (name sym : String) (s e : ℕ) (hrange : e ≤ s) (hfetch : fetch s e = []) :
    run_backtest_full fetch initial_capital commission_rate strat name sym s e
      = Except.ok (emptyResults name sym s e) := by
  unfold run_backtest_full run_backtest emptyResults
  rw [hfetch]
  simp

/-- Witness for `inverted_range_returns_ordinary_result` at start 5, end 3. -/
theorem inverted_range_returns_ordinary_result_witness :
    3 ≤ 5 ∧
    run_backtest_full (fun _ _ => []) 10000 (1/1000) stratNil "strategy" "BTCINR" 5 3
      = Except.ok (emptyResults "strategy" "BTCINR" 5 3) :=
  ⟨by decide, inverted_range_returns_ordinary_result (fun _ _ => []) 10000 (1/1000)
    stratNil "strategy" "BTCINR" 5 3 (by decide) rfl⟩

/-- Claim C2 (amended): the candle window handed to a strategy while bar
`i` is processed is `(take (i+1)).drop (i+1-limit)` — a suffix of the bars
up to and including bar `i`, so a future bar is never returned — and for a
valid index its length is `min (i+1) limit`, which equals the claimed
`i+1` only when `i + 1 ≤ limit` (the code truncates to the most recent
`limit` bars; the Python default is `limit = 100`). -/
theorem get_candles_window (d : List Bar) (i limit : ℕ) :
    get_candles d i limit = (d.take (i+1)).drop (i + 1 - limit) ∧
    (i < d.length → (get_candles d i limit).length = min (i+1) limit) := by
  have hmain : get_candles d i limit = (d.take (i+1)).drop (i + 1 - limit) := by
    unfold get_candles
    by_cases h : i < limit
    · have h0 : i + 1 - limit = 0 := by omega
      simp [h, h0]
    · have h1 : i - limit + 1 = i + 1 - limit := by omega
      simp only [if_neg h]
      rw [h1, List.drop_take]
  refine ⟨hmain, fun hi => ?_⟩
  rw [hmain]
  simp [List.length_drop, List.length_take]
  omega

/-- Witness for `get_candles_window` on a three-bar series at i = 2,
limit = 2. -/
theorem get_candles_window_witness :
    2 < bars6.length ∧
    (get_candles bars6 2 2).length = min (2+1) 2 :=
  ⟨by norm_num [bars6], (get_candles_window bars6 2 2).2 (by norm_num [bars6])⟩

/-- Claim C2 (counterexample): on a series of 101 bars, a strategy
requesting candles while bar 100 is processed with the Python-default
`limit = 100` receives 100 bars, not the claimed i + 1 = 101. -/
theorem get_candles_not_all_bars :
    (get_candles (List.replicate 101 (default : Bar)) 100 100).length = 100 ∧
    ¬ ((get_candles (List.replicate 101 (default : Bar)) 100 100).length
        = 100 + 1) := by
  have h : (get_candles (List.replicate 101 (default : Bar)) 100 100).length = 100 := by
    unfold get_candles
    norm_num
  exact ⟨h, by rw [h]; norm_num⟩

/-- Running-peak drawdown of the tail of an equity curve, given the peak
`p` established so far: the recursive reading of the scan of
`_calculate_results` (the state `(peak, max_dd)` fold `ddStep`). -/
def runPeakDD (p : ℚ) : List ℚ → ℚ
  | [] => 0
  | e :: rest => max (if e > p then 0 else (p - e) / p) (runPeakDD (max p e) rest)

/-- Claim-side list of drawdown candidates: the value
`(equity[j] - equity[k]) / equity[j]` for every index pair j ≤ k, written
by enumerating, for each j (via `tails`), the pairs with every k ≥ j. -/
def pairVals (curve : List ℚ) : List ℚ :=
  curve.tails.flatMap (fun t =>
    match t with
    | [] => []
    | a :: rest => (a :: rest).map (fun b => (a - b) / a))

/-- Claim-side drawdown: the maximum over all index pairs j ≤ k of
`(equity[j] - equity[k]) / equity[j]` when that maximum is positive, and 0
otherwise (folding `max` from 0 realizes the "else 0"). -/
def pairwiseDD (curve : List ℚ) : ℚ := (pairVals curve).foldl max 0

theorem foldl_max_general (l : List ℚ) : ∀ (i j : ℚ),
    l.foldl max (max i j) = max i (l.foldl max j) := by
  induction l with
  | nil => intro i j; rfl
  | cons a t ih =>
    intro i j
    rw [List.foldl_cons, max_assoc, ih]
    rfl

theorem foldl_max_nonneg (l : List ℚ) : ∀ (i : ℚ), 0 ≤ i → 0 ≤ l.foldl max i := by
  induction l with
  | nil => intro i hi; exact hi
  | cons a t ih =>
    intro i hi
    exact ih (max i a) (le_trans hi (le_max_left i a))

theorem le_foldl_max_init (l : List ℚ) : ∀ (i : ℚ), i ≤ l.foldl max i := by
  induction l with
  | nil => intro i; exact le_rfl
  | cons a t ih =>
    intro i
    exact le_trans (le_max_left i a) (ih (max i a))

theorem mem_le_foldl_max (l : List ℚ) : ∀ (i a : ℚ), a ∈ l → a ≤ l.foldl max i := by
  induction l with
  | nil => intro i a ha; cases ha
  | cons b t ih =>
    intro i a ha
    rcases List.mem_cons.mp ha with rfl | hat
    · exact le_trans (le_max_right i a) (le_foldl_max_init t (max i a))
    · exact ih (max i b) a hat

theorem foldl_max_le (l : List ℚ) : ∀ (i b : ℚ), i ≤ b → (∀ a ∈ l, a ≤ b) →
    l.foldl max i ≤ b := by
  induction l with
  | nil => intro i b hi _; exact hi
  | cons a t ih =>
    intro i b hi h
    exact ih (max i a) b (max_le hi (h a (List.mem_cons_self a t)))
      (fun x hx => h x (List.mem_cons_of_mem a hx))

theorem foldl_max_init_mono (l : List ℚ) : ∀ (i j : ℚ), i ≤ j →
    l.foldl max i ≤ l.foldl max j := by
  induction l with
  | nil => intro i j h; exact h
  | cons a t ih =>
    intro i j h
    exact ih (max i a) (max j a) (max_le_max h le_rfl)

theorem foldl_max_append (l1 l2 : List ℚ) :
    (l1 ++ l2).foldl max 0 = max (l1.foldl max 0) (l2.foldl max 0) := by
  rw [List.foldl_append]
  have h0 : 0 ≤ l1.foldl max 0 := foldl_max_nonneg l1 0 le_rfl
  conv_lhs => rw [show l1.foldl max 0 = max (l1.foldl max 0) 0 from (max_eq_left h0).symm]
  rw [foldl_max_general]

theorem runPeakDD_nonneg (l : List ℚ) : ∀ (p : ℚ), 0 < p → 0 ≤ runPeakDD p l := by
  induction l with
  | nil => intro p _; exact le_rfl
  | cons e t ih =>
    intro p hp
    exact le_max_of_le_right (ih (max p e) (lt_of_lt_of_le hp (le_max_left p e)))

theorem dd_mono_peak (p q c : ℚ) (hp : 0 < p) (hpq : p ≤ q) (hc : 0 ≤ c) :
    (p - c) / p ≤ (q - c) / q := by
  have hq : 0 < q := lt_of_lt_of_le hp hpq
  rw [div_le_div_iff hp hq]
  nlinarith

theorem runPeakDD_mono (l : List ℚ) : ∀ (p q : ℚ), 0 < p → p ≤ q →
    (∀ y ∈ l, 0 < y) → runPeakDD p l ≤ runPeakDD q l := by
  induction l with
  | nil => intro p q _ _ _; exact le_rfl
  | cons e t ih =>
    intro p q hp hpq hpos
    have hq := lt_of_lt_of_le hp hpq
    have he : 0 < e := hpos e (List.mem_cons_self e t)
    show max (if e > p then 0 else (p - e) / p) (runPeakDD (max p e) t)
      ≤ max (if e > q then 0 else (q - e) / q) (runPeakDD (max q e) t)
    apply max_le_max
    · by_cases h1 : e > q
      · have h2 : e > p := lt_of_le_of_lt hpq h1
        simp [h1, h2]
      · by_cases h2 : e > p
        · rw [if_pos h2, if_neg h1]
          exact div_nonneg (by linarith [not_lt.mp h1]) hq.le
        · rw [if_neg h2, if_neg h1]
          exact dd_mono_peak p q e hp hpq he.le
    · exact ih (max p e) (max q e) (lt_of_lt_of_le hp (le_max_left p e))
        (max_le_max hpq le_rfl) (fun y hy => hpos y (List.mem_cons_of_mem e hy))

theorem mem_dd_le_runPeakDD (l : List ℚ) : ∀ (p c : ℚ), 0 < p →
    (∀ y ∈ l, 0 < y) → c ∈ l → (p - c) / p ≤ runPeakDD p l := by
  induction l with
  | nil => intro p c _ _ hc; cases hc
  | cons d t ih =>
    intro p c hp hpos hc
    show (p - c) / p ≤ max (if d > p then 0 else (p - d) / p) (runPeakDD (max p d) t)
    rcases List.mem_cons.mp hc with rfl | hct
    · by_cases hd : c > p
      · have hle : (p - c) / p ≤ 0 :=
          div_nonpos_of_nonpos_of_nonneg (by linarith) hp.le
        exact le_trans hle (le_max_of_le_right
          (runPeakDD_nonneg t (max p c) (lt_of_lt_of_le hp (le_max_left p c))))
      · rw [if_neg hd]
        exact le_max_left _ _
    · calc (p - c) / p
          ≤ (max p d - c) / (max p d) :=
            dd_mono_peak p (max p d) c hp (le_max_left p d) (hpos c hc).le
        _ ≤ runPeakDD (max p d) t :=
            ih (max p d) c (lt_of_lt_of_le hp (le_max_left p d))
              (fun z hz => hpos z (List.mem_cons_of_mem d hz)) hct
        _ ≤ _ := le_max_right _ _

theorem runPeakDD_le_split (l : List ℚ) : ∀ (a b : ℚ), 0 < b → b ≤ a →
    (∀ y ∈ l, 0 < y) →
    runPeakDD a l ≤ max ((l.map (fun c => (a - c) / a)).foldl max 0) (runPeakDD b l) := by
  induction l with
  | nil =>
    intro a b _ _ _
    show (0:ℚ) ≤ max (List.foldl max 0 []) (0:ℚ)
    simp
  | cons c t ih =>
    intro a b hb hba hpos
    have ha : 0 < a := lt_of_lt_of_le hb hba
    have hc : 0 < c := hpos c (List.mem_cons_self c t)
    have hpost : ∀ y ∈ t, 0 < y := fun y hy => hpos y (List.mem_cons_of_mem c hy)
    show max (if c > a then 0 else (a - c) / a) (runPeakDD (max a c) t)
      ≤ max (((c :: t).map (fun x => (a - x) / a)).foldl max 0) (runPeakDD b (c :: t))
    apply max_le
    · by_cases hca : c > a
      · rw [if_pos hca]
        exact le_max_of_le_right (runPeakDD_nonneg (c :: t) b hb)
      · rw [if_neg hca]
        exact le_max_of_le_left
          (mem_le_foldl_max _ 0 _ (List.mem_map_of_mem _ (List.mem_cons_self c t)))
    · have step := ih (max a c) (max b c) (lt_of_lt_of_le hb (le_max_left b c))
        (max_le_max hba le_rfl) hpost
      refine le_trans step (max_le ?_ ?_)
      · by_cases hca : c ≤ a
        · rw [max_eq_left hca]
          apply le_max_of_le_left
          have e1 : ((c :: t).map (fun x => (a - x) / a)).foldl max 0
              = (t.map (fun x => (a - x) / a)).foldl max (max 0 ((a - c) / a)) := rfl
          rw [e1]
          exact foldl_max_init_mono _ 0 _ (le_max_left 0 _)
        · push_neg at hca
          rw [max_eq_right hca.le]
          apply le_max_of_le_right
          have h1 : (t.map (fun x => (c - x) / c)).foldl max 0 ≤ runPeakDD c t := by
            apply foldl_max_le
            · exact runPeakDD_nonneg t c hc
            · intro x hx
              obtain ⟨y, hy, rfl⟩ := List.mem_map.mp hx
              exact mem_dd_le_runPeakDD t c y hc hpost hy
          refine le_trans h1 ?_
          show runPeakDD c t
            ≤ max (if c > b then 0 else (b - c) / b) (runPeakDD (max b c) t)
          rw [max_eq_right (le_of_lt (lt_of_le_of_lt hba hca))]
          exact le_max_right _ _
      · apply le_max_of_le_right
        show runPeakDD (max b c) t
          ≤ max (if c > b then 0 else (b - c) / b) (runPeakDD (max b c) t)
        exact le_max_right _ _

theorem pairVals_cons (a : ℚ) (rest : List ℚ) :
    pairVals (a :: rest) = (a :: rest).map (fun b => (a - b) / a) ++ pairVals rest := by
  unfold pairVals
  rw [List.tails_cons, List.flatMap_cons]

theorem pairwiseDD_eq_runPeakDD (rest : List ℚ) : ∀ (a : ℚ), 0 < a →
    (∀ y ∈ rest, 0 < y) → pairwiseDD (a :: rest) = runPeakDD a rest := by
  induction rest with
  | nil =>
    intro a ha _
    show (pairVals [a]).foldl max 0 = 0
    have : pairVals [a] = [(a - a) / a] := by
      unfold pairVals
      rw [List.tails_cons]
      rfl
    rw [this]
    simp
  | cons b rest ih =>
    intro a ha hpos
    have hb : 0 < b := hpos b (List.mem_cons_self b rest)
    have hposr : ∀ y ∈ rest, 0 < y := fun y hy => hpos y (List.mem_cons_of_mem b hy)
    have hIH : (pairVals (b :: rest)).foldl max 0 = runPeakDD b rest := ih b hb hposr
    show (pairVals (a :: b :: rest)).foldl max 0 = runPeakDD a (b :: rest)
    rw [pairVals_cons, foldl_max_append, hIH]
    show max (((a :: b :: rest).map (fun x => (a - x) / a)).foldl max 0) (runPeakDD b rest)
      = max (if b > a then 0 else (a - b) / a) (runPeakDD (max a b) rest)
    by_cases hba : b > a
    · rw [if_pos hba, max_eq_right hba.le,
        max_eq_right (runPeakDD_nonneg rest b hb)]
      apply max_eq_right
      apply foldl_max_le
      · exact runPeakDD_nonneg rest b hb
      · intro x hx
        obtain ⟨y, hy, rfl⟩ := List.mem_map.mp hx
        rcases List.mem_cons.mp hy with heq | hy2
        · rw [heq, sub_self, zero_div]
          exact runPeakDD_nonneg rest b hb
        rcases List.mem_cons.mp hy2 with heq2 | hy3
        · rw [heq2]
          have hle : (a - b) / a ≤ 0 :=
            div_nonpos_of_nonpos_of_nonneg (by linarith) ha.le
          exact le_trans hle (runPeakDD_nonneg rest b hb)
        · calc (a - y) / a ≤ (b - y) / b :=
              dd_mono_peak a b y ha hba.le (hposr y hy3).le
            _ ≤ runPeakDD b rest := mem_dd_le_runPeakDD rest b y hb hposr hy3
    · push_neg at hba
      rw [if_neg (not_lt.mpr hba), max_eq_left hba]
      apply le_antisymm
      · apply max_le
        · apply foldl_max_le
          · exact le_max_of_le_right (runPeakDD_nonneg rest a ha)
          · intro x hx
            obtain ⟨y, hy, rfl⟩ := List.mem_map.mp hx
            rcases List.mem_cons.mp hy with heq | hy2
            · rw [heq, sub_self, zero_div]
              exact le_max_of_le_right (runPeakDD_nonneg rest a ha)
            rcases List.mem_cons.mp hy2 with heq2 | hy3
            · rw [heq2]
              exact le_max_left _ _
            · exact le_max_of_le_right (mem_dd_le_runPeakDD rest a y ha hposr hy3)
        · exact le_max_of_le_right (runPeakDD_mono rest b a hb hba hposr)
      · apply max_le
        · apply le_max_of_le_left
          exact mem_le_foldl_max _ 0 _
            (List.mem_map_of_mem _ (List.mem_cons_of_mem a (List.mem_cons_self b rest)))
        · have hsplit := runPeakDD_le_split rest a b hb hba hposr
          refine le_trans hsplit (max_le ?_ ?_)
          · apply le_max_of_le_left
            have e1 : ((a :: b :: rest).map (fun x => (a - x) / a)).foldl max 0
                = (rest.map (fun x => (a - x) / a)).foldl max
                    (max (max 0 ((a - a) / a)) ((a - b) / a)) := rfl
            rw [e1]
            exact foldl_max_init_mono _ 0 _
              (le_trans (le_max_left 0 _) (le_max_left _ _))
          · exact le_max_right _ _

theorem scan_eq_runPeakDD (l : List ℚ) : ∀ (p d : ℚ), 0 < p → 0 ≤ d →
    (∀ y ∈ l, 0 < y) → (l.foldl ddStep (p, d)).2 = max d (runPeakDD p l) := by
  induction l with
  | nil =>
    intro p d _ hd _
    show d = max d (runPeakDD p [])
    rw [show runPeakDD p [] = 0 from rfl, max_eq_left hd]
  | cons e t ih =>
    intro p d hp hd hpos
    have he : 0 < e := hpos e (List.mem_cons_self e t)
    have hpost : ∀ y ∈ t, 0 < y := fun y hy => hpos y (List.mem_cons_of_mem e hy)
    rw [List.foldl_cons]
    by_cases hc : e > p
    · rw [show ddStep (p, d) e = (e, d) from by simp [ddStep, hc]]
      rw [ih e d he hd hpost]
      rw [show runPeakDD p (e :: t)
          = max (if e > p then 0 else (p - e) / p) (runPeakDD (max p e) t) from rfl,
        if_pos hc, max_eq_right hc.le,
        max_eq_right (runPeakDD_nonneg t e he)]
    · push_neg at hc
      rw [show ddStep (p, d) e = (p, max d ((p - e) / p)) from
        by simp [ddStep, not_lt.mpr hc]]
      rw [ih p (max d ((p - e) / p)) hp (le_trans hd (le_max_left d _)) hpost]
      rw [show runPeakDD p (e :: t)
          = max (if e > p then 0 else (p - e) / p) (runPeakDD (max p e) t) from rfl,
        if_neg (not_lt.mpr hc), max_eq_left hc]
      rw [max_assoc]

/-- Claim C4 (amended): for an equity curve all of whose points are
positive and whose first point is at least the seed peak (the engine's
curves start at exactly the initial capital), the fraction computed by the
single-pass running-peak scan equals the claim's pairwise maximum
`max over j ≤ k of (equity[j] - equity[k]) / equity[j], else 0`;
`maxDrawdownPercent` is 100 × this fraction.  Without these conditions the
equality can fail. -/
theorem singlePass_eq_pairwise (initial_capital : ℚ) (curve : List ℚ)
    (hpos : ∀ x ∈ curve, 0 < x)
    (hseed : initial_capital ≤ curve.headD initial_capital) :
    singlePassDD initial_capital curve = pairwiseDD curve := by
  cases curve with
  | nil => rfl
  | cons e rest =>
    have he : 0 < e := hpos e (List.mem_cons_self e rest)
    have hpost : ∀ y ∈ rest, 0 < y := fun y hy => hpos y (List.mem_cons_of_mem e hy)
    have hseed2 : initial_capital ≤ e := by simpa using hseed
    have hstep : ddStep (initial_capital, 0) e = (e, 0) := by
      by_cases hc : e > initial_capital
      · simp [ddStep, hc]
      · have heq : e = initial_capital := le_antisymm (not_lt.mp hc) hseed2
        simp [ddStep, hc, heq]
    show (List.foldl ddStep (initial_capital, 0) (e :: rest)).2 = pairwiseDD (e :: rest)
    rw [List.foldl_cons, hstep, scan_eq_runPeakDD rest e 0 he le_rfl hpost,
      max_eq_right (runPeakDD_nonneg rest e he),
      pairwiseDD_eq_runPeakDD rest e he hpost]

/-- Witness for `singlePass_eq_pairwise` on the curve [100, 80, 120, 90]
with initial capital 100 (both sides evaluate to 1/4). -/
theorem singlePass_eq_pairwise_witness :
    (∀ x ∈ ([100, 80, 120, 90] : List ℚ), 0 < x) ∧
    (100 : ℚ) ≤ ([100, 80, 120, 90] : List ℚ).headD 100 ∧
    singlePassDD 100 [100, 80, 120, 90] = pairwiseDD [100, 80, 120, 90] :=
  ⟨by norm_num, by norm_num,
    singlePass_eq_pairwise 100 [100, 80, 120, 90] (by norm_num) (by norm_num)⟩

/-- Claim C4 (counterexample): as stated ("for every equity curve") the
equivalence is false: on the one-point curve [50] with initial capital 100
the single-pass scan reports the drawdown 1/2 from the seed peak 100, while
the pairwise maximum over the curve's own index pairs is 0. -/
theorem singlePass_ne_pairwise_in_general :
    singlePassDD 100 [50] = 1/2 ∧ pairwiseDD [50] = 0 ∧
    ¬ (singlePassDD 100 [50] = pairwiseDD [50]) := by
  have h1 : singlePassDD 100 [50] = 1/2 := by
    norm_num [singlePassDD, ddStep]
  have h2 : pairwiseDD [50] = 0 := by
    have : pairVals [50] = [(50 - 50) / 50] := by
      unfold pairVals
      rw [List.tails_cons]
      rfl
    norm_num [pairwiseDD, this]
  refine ⟨h1, h2, ?_⟩
  rw [h1, h2]
  norm_num
